import Mathlib

/-!
Verification of the autoform-mcp corporate-body search core: query parsing,
credential resolution, URL sanitization, upstream request construction and
response classification. The core module ships outside this tree (only its
test suite and a CLI wrapper are present), so the definitions below are
modelled from the specification, faithful to its words, and the theorems
settle the specified properties against that model.
-/

/-- Boolean test that the first character list is an initial segment of the
second one. -/
def isPrefOf : List Char → List Char → Bool
  | [], _ => true
  | _ :: _, [] => false
  | a :: x, b :: y => (a == b) && isPrefOf x y

/-- Split a character list at the first occurrence of a given character,
returning the parts before and after it, or none when the character is
absent. -/
def splitFirstChar (c : Char) : List Char → Option (List Char × List Char)
  | [] => none
  | a :: rest =>
    if a = c then some ([], rest)
    else (splitFirstChar c rest).map (fun pr => (a :: pr.1, pr.2))

/-- Split a character list on every occurrence of a separator character; the
result is always nonempty and its pieces never contain the separator. -/
def splitOnChar (c : Char) : List Char → List (List Char)
  | [] => [[]]
  | a :: rest =>
    if a = c then [] :: splitOnChar c rest
    else
      match splitOnChar c rest with
      | [] => [[a]]
      | p :: ps => (a :: p) :: ps

/-- Join character-list pieces, putting the separator character between
consecutive pieces. -/
def joinChar (c : Char) : List (List Char) → List Char
  | [] => []
  | [p] => p
  | p :: ps => p ++ c :: joinChar c ps

/-- Modelled from the spec: the sensitive query-parameter name, followed by the
key-value separator, as the redaction key of the URL sanitizer. -/
def tokenKey : List Char := "private_access_token=".data

/-- Modelled from the spec: the redacted rendering of the sensitive query
parameter. -/
def redactedParam : List Char := "private_access_token=***".data

/-- Modelled from the spec: redact one query-string piece when its parameter
name is exactly the sensitive name, and keep it verbatim otherwise. -/
def sanitizePiece (p : List Char) : List Char :=
  if isPrefOf tokenKey p then redactedParam else p

/-- Modelled from the spec: redact the sensitive parameter everywhere inside a
query string, leaving the other pieces and their order untouched. -/
def sanitizeQueryChars (q : List Char) : List Char :=
  joinChar '&' ((splitOnChar '&' q).map sanitizePiece)

/-- Modelled from the spec (autoform_mcp.sanitize_url is absent from this
tree): replace the value of the private_access_token query parameter of a URL
with the fixed marker, leaving everything else untouched; a URL without a query
string is returned unchanged. -/
def sanitize_url (s : String) : String :=
  match splitFirstChar '?' s.data with
  | none => s
  | some (base, q) => String.mk (base ++ '?' :: sanitizeQueryChars q)

/-- Modelled from the spec: decide whether the query string of a URL contains a
parameter whose name is exactly the sensitive parameter name. -/
def hasTokenParam (s : String) : Bool :=
  match splitFirstChar '?' s.data with
  | none => false
  | some (_, q) => (splitOnChar '&' q).any (fun p => isPrefOf tokenKey p)

/-- Modelled from the spec: a URL assembled from a base with no question mark
and a list of query-string pieces. -/
def urlOfPieces (base : List Char) (ps : List (List Char)) : String :=
  String.mk (base ++ '?' :: joinChar '&' ps)

/-- Modelled from the spec: the structured search filter, one of the two
variants selected by the query field. -/
inductive SearchFilter
  | byName (value : String)
  | byCIN (value : String)
deriving DecidableEq

/-- Modelled from the spec: the outcome of query parsing. -/
inductive ParseResult
  | ok (filter : SearchFilter)
  | invalidQuery (msg : String)
deriving DecidableEq

/-- Modelled from the spec: the fixed message reported for a malformed query. -/
def invalidQueryMsg : String :=
  "Invalid query. Expected name:value or cin:value"

/-- Lower-case every character of a string. -/
def lowerStr (s : String) : String := String.mk (s.data.map Char.toLower)

/-- Remove the surrounding whitespace of a string. -/
def trimStr (s : String) : String :=
  String.mk (((s.data.dropWhile Char.isWhitespace).reverse.dropWhile
    Char.isWhitespace).reverse)

/-- Modelled from the spec (autoform_mcp query parsing is absent from this
tree): split the query on the first colon only, select the variant by the
case-insensitive left side, trim the right side, and fail on a missing colon,
an unknown left side, or an empty trimmed right side. -/
def parse_query (q : String) : ParseResult :=
  match splitFirstChar ':' q.data with
  | none => ParseResult.invalidQuery invalidQueryMsg
  | some (l, r) =>
    let field := lowerStr (String.mk l)
    let value := trimStr (String.mk r)
    if value = "" then ParseResult.invalidQuery invalidQueryMsg
    else if field = "name" then ParseResult.ok (SearchFilter.byName value)
    else if field = "cin" then ParseResult.ok (SearchFilter.byCIN value)
    else ParseResult.invalidQuery invalidQueryMsg

/-- Modelled from the spec: extract the token from an Authorization header
value whose scheme keyword matches Bearer case-insensitively; the token
following the scheme keyword and the single space is kept verbatim. -/
def bearerToken (v : String) : Option String :=
  match v.data with
  | c1 :: c2 :: c3 :: c4 :: c5 :: c6 :: c7 :: rest =>
    if [c1, c2, c3, c4, c5, c6, c7].map Char.toLower = "bearer ".data then
      some (String.mk rest)
    else none
  | _ => none

/-- Modelled from the spec: the recognized inbound headers, a typed optional
mapping from the fixed set of recognized header names to their values. -/
structure Headers where
  authorization : Option String := none
  xAutoformPrivateAccessToken : Option String := none
deriving DecidableEq

/-- Modelled from the spec: the inbound request wrapper of the hosting
framework, read-only to the core. -/
structure InboundRequest where
  headers : Headers
deriving DecidableEq

/-- Modelled from the spec: the per-invocation request context supplied by the
hosting framework, optionally embedding the inbound request. -/
structure RequestContext where
  request : Option InboundRequest := none
deriving DecidableEq

/-- Modelled from the spec: the optional tool context carrying the request
context. -/
structure ToolContext where
  request_context : Option RequestContext := none
deriving DecidableEq

/-- Modelled from the spec: the name of the fallback environment variable. -/
def tokenEnvVar : String := "AUTOFORM_PRIVATE_ACCESS_TOKEN"

/-- Modelled from the spec: the message reported when no credential source
yields a value; it names the environment variable and contains no credential
value. -/
def missingCredentialMsg : String :=
  "AUTOFORM_PRIVATE_ACCESS_TOKEN environment variable is not set and no token header is present"

/-- Modelled from the spec: the outcome of credential resolution. -/
inductive ResolveResult
  | token (value : String)
  | missingCredential (msg : String)
deriving DecidableEq

/-- Modelled from the spec: the token obtainable from the inbound headers
alone, the Bearer Authorization header first, then the custom header; an
Authorization header of another scheme is ignored entirely. -/
def headerTokenOf (ctx : Option ToolContext) : Option String :=
  match ctx with
  | none => none
  | some c =>
    match c.request_context with
    | none => none
    | some rc =>
      match rc.request with
      | none => none
      | some req =>
        match req.headers.authorization with
        | some a =>
          match bearerToken a with
          | some t => some t
          | none => req.headers.xAutoformPrivateAccessToken
        | none => req.headers.xAutoformPrivateAccessToken

/-- Modelled from the spec (autoform_mcp.get_access_token is absent from this
tree): resolve the credential from the Bearer Authorization header, then the
custom header, then the environment variable, in that fixed order, failing
with the MissingCredential message when no source yields a value. -/
def get_access_token (ctx : Option ToolContext) (env : String → Option String) :
    ResolveResult :=
  match headerTokenOf ctx with
  | some t => ResolveResult.token t
  | none =>
    match env tokenEnvVar with
    | some t => ResolveResult.token t
    | none => ResolveResult.missingCredential missingCredentialMsg

/-- Modelled from the spec: a context carrying the two recognized headers, for
stating the resolution-precedence properties. -/
def mkCtx (auth custom : Option String) : Option ToolContext :=
  some ⟨some ⟨some ⟨⟨auth, custom⟩⟩⟩⟩

/-- Modelled from the spec: a process environment in which the fallback
variable optionally holds the given value and no other variable is set. -/
def envOf (e : Option String) : String → Option String :=
  fun k => if k = tokenEnvVar then e else none

/-- Modelled from the spec: one registry entry, every field optional; absence
means unknown, never an empty string. -/
structure CorporateBody where
  cin : Option String := none
  tin : Option String := none
  vatin : Option String := none
  name : Option String := none
  formatted_address : Option String := none
  street : Option String := none
  reg_number : Option String := none
  building_number : Option String := none
  postal_code : Option String := none
  municipality : Option String := none
  country : Option String := none
  established_on : Option String := none
  terminated_on : Option String := none
  datahub_corporate_body_url : Option String := none
deriving DecidableEq

/-- Modelled from the spec: the result envelope of one search. -/
structure SearchResult where
  count : Nat := 0
  results : List CorporateBody := []
deriving DecidableEq

/-- Modelled from the spec: a decoded JSON object, a finite mapping from field
names to optional string values; an explicit null is an absent value. -/
abbrev JsonObject : Type := List (String × Option String)

/-- Modelled from the spec: permissive field lookup in a decoded JSON object. -/
def jsonField (o : JsonObject) (k : String) : Option String :=
  match o.find? (fun p => p.1 == k) with
  | some p => p.2
  | none => none

/-- Modelled from the spec: the permissive mapping of one decoded JSON object
onto a CorporateBody; unknown fields are ignored and missing fields stay
absent. -/
def parseCorporateBody (o : JsonObject) : CorporateBody :=
  { cin := jsonField o "cin"
    tin := jsonField o "tin"
    vatin := jsonField o "vatin"
    name := jsonField o "name"
    formatted_address := jsonField o "formatted_address"
    street := jsonField o "street"
    reg_number := jsonField o "reg_number"
    building_number := jsonField o "building_number"
    postal_code := jsonField o "postal_code"
    municipality := jsonField o "municipality"
    country := jsonField o "country"
    established_on := jsonField o "established_on"
    terminated_on := jsonField o "terminated_on"
    datahub_corporate_body_url := jsonField o "datahub_corporate_body_url" }

/-- Modelled from the spec: the outbound GET request, a fixed endpoint and its
query parameters in order. -/
structure OutRequest where
  base : String
  params : List (String × String)
deriving DecidableEq

/-- Modelled from the spec: the behavior of the HTTP transport collaborator on
one request: a decoded JSON array on success, a status code with the optional
JSON message field and the raw body text on an HTTP error, or a
transport-level failure. -/
inductive HttpResponse
  | success (body : List JsonObject)
  | failure (status : Nat) (jsonMessage : Option String) (text : String)
  | transportFailure (reason : String)

/-- Modelled from the spec: the fixed search endpoint of the registry API. -/
def apiBase : String :=
  "https://autoform.ekosystem.slovensko.digital/api/corporate_bodies/search"

/-- Modelled from the spec: the normalized field:value form of a filter. -/
def normalizedQ : SearchFilter → String
  | SearchFilter.byName v => "name:" ++ v
  | SearchFilter.byCIN v => "cin:" ++ v

/-- Modelled from the spec: the query parameters of the upstream GET, in order:
q, limit, the literal filter=active only when activeOnly holds, and the
credential under the sensitive parameter name. -/
def buildParams (f : SearchFilter) (limit : Nat) (activeOnly : Bool)
    (token : String) : List (String × String) :=
  [("q", normalizedQ f), ("limit", toString limit)]
    ++ (if activeOnly then [("filter", "active")] else [])
    ++ [("private_access_token", token)]

/-- Modelled from the spec: render one query parameter as name=value. -/
def renderParam (p : String × String) : String := p.1 ++ "=" ++ p.2

/-- Modelled from the spec: join rendered query parameters with ampersands. -/
def renderQuery : List String → String
  | [] => ""
  | [x] => x
  | x :: xs => x ++ "&" ++ renderQuery xs

/-- Modelled from the spec: the full request URL, with the credential embedded
as the sensitive query parameter. -/
def renderRequest (r : OutRequest) : String :=
  r.base ++ "?" ++ renderQuery (r.params.map renderParam)

/-- Modelled from the spec: value lookup among the request parameters. -/
def paramValue (ps : List (String × String)) (k : String) : Option String :=
  match ps.find? (fun p => p.1 == k) with
  | some p => some p.2
  | none => none

/-- Modelled from the spec: the HTTP-error text, composed from the status code,
the message extracted from the JSON body or the raw body text, and the
sanitized request URL. -/
def composeHttpError (status : Nat) (jsonMessage : Option String) (text : String)
    (req : OutRequest) : String :=
  ("HTTP " ++ toString status ++ ":") ++ " " ++ jsonMessage.getD text ++ " " ++
    sanitize_url (renderRequest req)

/-- Modelled from the spec: the transport-error text; no response body is
assumed to exist. -/
def composeTransportError (reason : String) : String :=
  "Request failed:" ++ " " ++ reason

/-- Modelled from the spec: the classified error taxonomy of one invocation. -/
inductive ToolError
  | invalidQuery (msg : String)
  | missingCredential (msg : String)
  | upstreamHTTP (msg : String)
  | upstreamTransport (msg : String)
deriving DecidableEq

/-- Modelled from the spec: the externally observable text of a classified
error. -/
def toolErrorMsg : ToolError → String
  | ToolError.invalidQuery m => m
  | ToolError.missingCredential m => m
  | ToolError.upstreamHTTP m => m
  | ToolError.upstreamTransport m => m

/-- Modelled from the spec: the outcome of one tool invocation. -/
inductive ToolResult
  | ok (result : SearchResult)
  | error (e : ToolError)
deriving DecidableEq

/-- Modelled from the spec (autoform_mcp.query_corporate_bodies is absent from
this tree): parse the query, resolve the credential, issue one GET through the
transport collaborator, and classify the outcome; the second component records
the request issued, none when the invocation fails before any network access. -/
def query_corporate_bodies (query : String) (limit : Nat) (activeOnly : Bool)
    (ctx : Option ToolContext) (env : String → Option String)
    (http : OutRequest → HttpResponse) : ToolResult × Option OutRequest :=
  match parse_query query with
  | ParseResult.invalidQuery m => (ToolResult.error (ToolError.invalidQuery m), none)
  | ParseResult.ok f =>
    match get_access_token ctx env with
    | ResolveResult.missingCredential m =>
        (ToolResult.error (ToolError.missingCredential m), none)
    | ResolveResult.token tok =>
      let req : OutRequest := ⟨apiBase, buildParams f limit activeOnly tok⟩
      match http req with
      | HttpResponse.success objs =>
          (ToolResult.ok ⟨objs.length, objs.map parseCorporateBody⟩, some req)
      | HttpResponse.failure status jm text =>
          (ToolResult.error
            (ToolError.upstreamHTTP (composeHttpError status jm text req)), some req)
      | HttpResponse.transportFailure r =>
          (ToolResult.error
            (ToolError.upstreamTransport (composeTransportError r)), some req)

theorem seg_of_pref {x a : List Char} (h : x <+: a) : x <:+: a := by
  obtain ⟨t, ht⟩ := h
  exact ⟨[], t, by simpa using ht⟩

theorem seg_self (l : List Char) : l <:+: l :=
  ⟨[], [], by simp⟩

theorem seg_cons {l x : List Char} (c : Char) (h : l <:+: x) : l <:+: c :: x := by
  obtain ⟨s, t, ht⟩ := h
  exact ⟨c :: s, t, by simp [ht]⟩

theorem seg_app_left {l x : List Char} (y : List Char) (h : l <:+: x) :
    l <:+: x ++ y := by
  obtain ⟨s, t, ht⟩ := h
  exact ⟨s, t ++ y, by rw [← ht]; simp⟩

theorem seg_app_right {l y : List Char} (x : List Char) (h : l <:+: y) :
    l <:+: x ++ y := by
  obtain ⟨s, t, ht⟩ := h
  exact ⟨x ++ s, t, by rw [← ht]; simp⟩

theorem seg_nil {l : List Char} (h : l <:+: ([] : List Char)) : l = [] := by
  obtain ⟨s, t, ht⟩ := h
  simp only [List.append_eq_nil] at ht
  exact ht.1.2

theorem pref_split {x t a b : List Char} {c : Char}
    (h : x ++ t = a ++ c :: b) (hc : c ∉ x) : x <+: a := by
  induction x generalizing a with
  | nil => exact ⟨a, rfl⟩
  | cons xh x ih =>
    cases a with
    | nil =>
      simp only [List.cons_append, List.nil_append] at h
      obtain ⟨h1, h2⟩ := List.cons.inj h
      cases h1
      exact absurd (List.mem_cons_self _ _) hc
    | cons ah a =>
      simp only [List.cons_append] at h
      obtain ⟨h1, h2⟩ := List.cons.inj h
      obtain ⟨t2, ht2⟩ := ih h2 (fun hm => hc (List.mem_cons_of_mem _ hm))
      exact ⟨t2, by simp [h1, ht2]⟩

theorem seg_split {l a b : List Char} {c : Char}
    (h : l <:+: a ++ c :: b) (hc : c ∉ l) : l <:+: a ∨ l <:+: b := by
  obtain ⟨s, t, hst⟩ := h
  induction a generalizing s with
  | nil =>
    cases s with
    | nil =>
      cases l with
      | nil => exact Or.inl ⟨[], [], rfl⟩
      | cons lh l =>
        simp only [List.cons_append, List.nil_append] at hst
        obtain ⟨h1, h2⟩ := List.cons.inj hst
        cases h1
        exact absurd (List.mem_cons_self _ _) hc
    | cons sh s =>
      simp only [List.cons_append, List.nil_append] at hst
      obtain ⟨h1, h2⟩ := List.cons.inj hst
      exact Or.inr ⟨s, t, h2⟩
  | cons ah a ih =>
    cases s with
    | nil =>
      cases l with
      | nil => exact Or.inl ⟨[], ah :: a, rfl⟩
      | cons lh l =>
        simp only [List.cons_append, List.nil_append] at hst
        obtain ⟨h1, h2⟩ := List.cons.inj hst
        have hp : l <+: a := pref_split h2 (fun hm => hc (List.mem_cons_of_mem _ hm))
        cases h1
        obtain ⟨t2, ht2⟩ := hp
        exact Or.inl (seg_of_pref ⟨t2, by simp [ht2]⟩)
    | cons sh s =>
      simp only [List.cons_append] at hst
      obtain ⟨h1, h2⟩ := List.cons.inj hst
      rcases ih s h2 with h3 | h3
      · exact Or.inl (seg_cons ah h3)
      · exact Or.inr h3

theorem seg_join {l : List Char} {c : Char} {ps : List (List Char)}
    (h : l <:+: joinChar c ps) (hc : c ∉ l) (hl : l ≠ []) :
    ∃ p ∈ ps, l <:+: p := by
  induction ps with
  | nil => exact absurd (seg_nil h) hl
  | cons p ps ih =>
    cases ps with
    | nil => exact ⟨p, List.mem_cons_self _ _, h⟩
    | cons q ps2 =>
      have hj : joinChar c (p :: q :: ps2) = p ++ c :: joinChar c (q :: ps2) := rfl
      rw [hj] at h
      rcases seg_split h hc with h1 | h1
      · exact ⟨p, List.mem_cons_self _ _, h1⟩
      · obtain ⟨p2, hp2, hseg⟩ := ih h1
        exact ⟨p2, List.mem_cons_of_mem _ hp2, hseg⟩

theorem mem_seg_join {p : List Char} {c : Char} {ps : List (List Char)}
    (h : p ∈ ps) : p <:+: joinChar c ps := by
  induction ps with
  | nil => exact absurd h (List.not_mem_nil _)
  | cons q ps ih =>
    cases ps with
    | nil =>
      have hp : p = q := by simpa using h
      subst hp
      exact seg_self _
    | cons r ps2 =>
      have hj : joinChar c (q :: r :: ps2) = q ++ c :: joinChar c (r :: ps2) := rfl
      rw [hj]
      rcases List.mem_cons.mp h with h1 | h1
      · subst h1
        exact seg_app_left _ (seg_self _)
      · exact seg_app_right _ (seg_cons c (ih h1))

theorem sfc_of_not_mem {c : Char} {l : List Char} (h : c ∉ l) :
    splitFirstChar c l = none := by
  induction l with
  | nil => rfl
  | cons a l ih =>
    have ha : ¬ a = c := by intro he; exact h (by simp [he])
    simp [splitFirstChar, ha, ih (fun hm => h (List.mem_cons_of_mem _ hm))]

theorem sfc_append {c : Char} {x : List Char} (y : List Char) (h : c ∉ x) :
    splitFirstChar c (x ++ c :: y) = some (x, y) := by
  induction x with
  | nil => simp [splitFirstChar]
  | cons a x ih =>
    have ha : ¬ a = c := by intro he; exact h (by simp [he])
    have hx : c ∉ x := fun hm => h (List.mem_cons_of_mem _ hm)
    simp [splitFirstChar, ha, ih hx]

theorem sfc_some {c : Char} {l x y : List Char}
    (h : splitFirstChar c l = some (x, y)) : x ++ c :: y = l ∧ c ∉ x := by
  induction l generalizing x y with
  | nil => simp [splitFirstChar] at h
  | cons a l ih =>
    by_cases ha : a = c
    · simp only [splitFirstChar, if_pos ha, Option.some.injEq, Prod.mk.injEq] at h
      obtain ⟨h1, h2⟩ := h
      subst h1; subst h2
      exact ⟨by simp [ha], by simp⟩
    · simp only [splitFirstChar, if_neg ha] at h
      cases hspl : splitFirstChar c l with
      | none => rw [hspl] at h; simp at h
      | some pr =>
        rw [hspl] at h
        simp only [Option.map_some', Option.some.injEq, Prod.mk.injEq] at h
        obtain ⟨h1, h2⟩ := h
        obtain ⟨heq, hnm⟩ := ih (show splitFirstChar c l = some (pr.1, pr.2) by rw [hspl])
        constructor
        · rw [← h1, ← h2, List.cons_append, heq]
        · rw [← h1]
          intro hm
          rcases List.mem_cons.mp hm with h3 | h3
          · exact ha h3.symm
          · exact hnm h3

theorem soc_ne_nil (c : Char) (l : List Char) : splitOnChar c l ≠ [] := by
  cases l with
  | nil => simp [splitOnChar]
  | cons a l =>
    simp only [splitOnChar]
    split
    · simp
    · split <;> simp

theorem join_soc (c : Char) (l : List Char) : joinChar c (splitOnChar c l) = l := by
  induction l with
  | nil => rfl
  | cons a l ih =>
    by_cases ha : a = c
    · simp only [splitOnChar, if_pos ha]
      cases hsp : splitOnChar c l with
      | nil => exact absurd hsp (soc_ne_nil _ _)
      | cons p ps =>
        have hj : joinChar c ([] :: p :: ps) = c :: joinChar c (p :: ps) := rfl
        rw [hj, ← hsp, ih, ha]
    · simp only [splitOnChar, if_neg ha]
      cases hsp : splitOnChar c l with
      | nil => exact absurd hsp (soc_ne_nil _ _)
      | cons p ps =>
        cases ps with
        | nil =>
          have hip : p = l := by rw [hsp] at ih; exact ih
          simp [joinChar, hip]
        | cons q ps2 =>
          have h1 : joinChar c ((a :: p) :: q :: ps2)
              = (a :: p) ++ c :: joinChar c (q :: ps2) := rfl
          have h2 : joinChar c (p :: q :: ps2) = p ++ c :: joinChar c (q :: ps2) := rfl
          rw [h1]
          have h3 := ih
          rw [hsp, h2] at h3
          simp [← h3]

theorem mem_soc {c : Char} {l p : List Char} (h : p ∈ splitOnChar c l) : c ∉ p := by
  induction l generalizing p with
  | nil =>
    simp only [splitOnChar, List.mem_singleton] at h
    subst h; simp
  | cons a l ih =>
    by_cases ha : a = c
    · simp only [splitOnChar, if_pos ha] at h
      rcases List.mem_cons.mp h with h1 | h1
      · subst h1; simp
      · exact ih h1
    · simp only [splitOnChar, if_neg ha] at h
      cases hsp : splitOnChar c l with
      | nil => exact absurd hsp (soc_ne_nil _ _)
      | cons q qs =>
        rw [hsp] at h
        rcases List.mem_cons.mp h with h1 | h1
        · subst h1
          intro hm
          rcases List.mem_cons.mp hm with h2 | h2
          · exact ha h2.symm
          · exact ih (p := q) (by rw [hsp]; exact List.mem_cons_self q qs) h2
        · exact ih (by rw [hsp]; exact List.mem_cons_of_mem q h1)

theorem soc_no_sep {c : Char} {p : List Char} (h : c ∉ p) : splitOnChar c p = [p] := by
  induction p with
  | nil => rfl
  | cons a p ih =>
    have ha : ¬ a = c := by intro he; exact h (by simp [he])
    have hp : c ∉ p := fun hm => h (List.mem_cons_of_mem _ hm)
    simp only [splitOnChar, if_neg ha]
    rw [ih hp]

theorem soc_across {c : Char} {p : List Char} (rest : List Char) (h : c ∉ p) :
    splitOnChar c (p ++ c :: rest) = p :: splitOnChar c rest := by
  induction p with
  | nil => simp [splitOnChar]
  | cons a p ih =>
    have ha : ¬ a = c := by intro he; exact h (by simp [he])
    have hp : c ∉ p := fun hm => h (List.mem_cons_of_mem _ hm)
    simp only [List.cons_append, splitOnChar, if_neg ha, List.append_eq]
    rw [ih hp]

theorem soc_join {c : Char} {ps : List (List Char)} (h : ∀ p ∈ ps, c ∉ p)
    (hne : ps ≠ []) : splitOnChar c (joinChar c ps) = ps := by
  induction ps with
  | nil => exact absurd rfl hne
  | cons p ps ih =>
    cases ps with
    | nil => exact soc_no_sep (h p (List.mem_cons_self _ _))
    | cons q ps2 =>
      have hj : joinChar c (p :: q :: ps2) = p ++ c :: joinChar c (q :: ps2) := rfl
      rw [hj, soc_across _ (h p (List.mem_cons_self _ _))]
      rw [ih (fun r hr => h r (List.mem_cons_of_mem _ hr)) (by simp)]

theorem isPrefOf_self_append (x y : List Char) : isPrefOf x (x ++ y) = true := by
  induction x with
  | nil => rfl
  | cons a x ih => simp [isPrefOf, ih]

theorem isPrefOf_head_ne {a b : Char} (x y : List Char) (h : ¬ a = b) :
    isPrefOf (a :: x) (b :: y) = false := by
  show ((a == b) && isPrefOf x y) = false
  rw [beq_eq_false_iff_ne.mpr h]
  rfl

theorem sanitizePiece_matched (v : List Char) :
    sanitizePiece (tokenKey ++ v) = redactedParam := by
  simp [sanitizePiece, isPrefOf_self_append]

theorem sanitizePiece_unmatched {p : List Char} (h : isPrefOf tokenKey p = false) :
    sanitizePiece p = p := by
  simp [sanitizePiece, h]

theorem redacted_eq : redactedParam = tokenKey ++ "***".data := by decide

theorem sanitizePiece_idem (p : List Char) :
    sanitizePiece (sanitizePiece p) = sanitizePiece p := by
  cases hp : isPrefOf tokenKey p with
  | false => rw [sanitizePiece_unmatched hp, sanitizePiece_unmatched hp]
  | true =>
    rw [show sanitizePiece p = redactedParam from by simp [sanitizePiece, hp]]
    rw [redacted_eq, sanitizePiece_matched]
    exact redacted_eq

theorem sanitizePiece_no_amp {p : List Char} (h : '&' ∉ p) : '&' ∉ sanitizePiece p := by
  unfold sanitizePiece
  split
  · decide
  · exact h

theorem data_append (a b : String) : (a ++ b).data = a.data ++ b.data := rfl

theorem mk_data (l : List Char) : (String.mk l).data = l := rfl

theorem mk_of_data (s : String) : String.mk s.data = s := rfl

theorem renderParam_data (k v : String) :
    (renderParam (k, v)).data = k.data ++ '=' :: v.data := by
  rw [show (renderParam (k, v)).data = (k.data ++ ['=']) ++ v.data from rfl,
    List.append_assoc]
  rfl

theorem renderQuery_data (xs : List String) :
    (renderQuery xs).data = joinChar '&' (xs.map String.data) := by
  induction xs with
  | nil => rfl
  | cons x xs ih =>
    cases xs with
    | nil => rfl
    | cons y ys =>
      have h1 : (renderQuery (x :: y :: ys)).data
          = (x.data ++ ['&']) ++ (renderQuery (y :: ys)).data := rfl
      have h2 : joinChar '&' ((x :: y :: ys).map String.data)
          = x.data ++ '&' :: joinChar '&' ((y :: ys).map String.data) := rfl
      rw [h1, h2, ih, List.append_assoc]
      rfl

theorem sanitize_some {s : String} {base q : List Char}
    (h : splitFirstChar '?' s.data = some (base, q)) :
    sanitize_url s = String.mk (base ++ '?' :: sanitizeQueryChars q) := by
  unfold sanitize_url
  rw [h]

theorem sanitize_none {s : String} (h : splitFirstChar '?' s.data = none) :
    sanitize_url s = s := by
  unfold sanitize_url
  rw [h]

theorem sq_idem (q : List Char) :
    sanitizeQueryChars (sanitizeQueryChars q) = sanitizeQueryChars q := by
  have hps : ∀ p ∈ (splitOnChar '&' q).map sanitizePiece, '&' ∉ p := by
    intro p hp
    obtain ⟨p0, hp0, hpe⟩ := List.mem_map.mp hp
    rw [← hpe]
    exact sanitizePiece_no_amp (mem_soc hp0)
  have hne : (splitOnChar '&' q).map sanitizePiece ≠ [] := by
    intro hnil
    exact soc_ne_nil '&' q (List.map_eq_nil_iff.mp hnil)
  calc sanitizeQueryChars (sanitizeQueryChars q)
      = joinChar '&' (((splitOnChar '&' q).map sanitizePiece).map sanitizePiece) := by
        unfold sanitizeQueryChars
        rw [soc_join hps hne]
    _ = joinChar '&' ((splitOnChar '&' q).map sanitizePiece) := by
        rw [List.map_map]
        exact congrArg _ (List.map_congr_left (fun p _ => sanitizePiece_idem p))

/-- Claim C8: sanitize_url is idempotent on every URL, and is the identity,
byte for byte, on every URL whose query string does not contain the sensitive
parameter. -/
theorem sanitize_url_idem_and_identity :
    (∀ s, sanitize_url (sanitize_url s) = sanitize_url s) ∧
      ∀ s, hasTokenParam s = false → sanitize_url s = s := by
  constructor
  · intro s
    cases hsf : splitFirstChar '?' s.data with
    | none => rw [sanitize_none hsf, sanitize_none hsf]
    | some pr =>
      obtain ⟨base, q⟩ := pr
      obtain ⟨heq, hqm⟩ := sfc_some hsf
      rw [sanitize_some hsf]
      have hsf2 : splitFirstChar '?'
          (String.mk (base ++ '?' :: sanitizeQueryChars q)).data
          = some (base, sanitizeQueryChars q) := by
        rw [mk_data]
        exact sfc_append _ hqm
      rw [sanitize_some hsf2, sq_idem]
  · intro s h
    cases hsf : splitFirstChar '?' s.data with
    | none => exact sanitize_none hsf
    | some pr =>
      obtain ⟨base, q⟩ := pr
      obtain ⟨heq, hqm⟩ := sfc_some hsf
      have h2 : (splitOnChar '&' q).any (fun p => isPrefOf tokenKey p) = false := by
        have h3 := h
        unfold hasTokenParam at h3
        rw [hsf] at h3
        exact h3
      have hall : ∀ p ∈ splitOnChar '&' q, isPrefOf tokenKey p = false := by
        intro p hp
        cases hip : isPrefOf tokenKey p with
        | false => rfl
        | true =>
          rw [List.any_eq_true.mpr ⟨p, hp, hip⟩] at h2
          simp at h2
      rw [sanitize_some hsf]
      have hq : sanitizeQueryChars q = q := by
        unfold sanitizeQueryChars
        rw [show (splitOnChar '&' q).map sanitizePiece = (splitOnChar '&' q).map id from
          List.map_congr_left (fun p hp => sanitizePiece_unmatched (hall p hp)),
          List.map_id]
        exact join_soc '&' q
      rw [hq, heq, mk_of_data]

/-- Witness for C8 at a concrete URL without the sensitive parameter. -/
theorem sanitize_url_idem_and_identity_witness :
    sanitize_url "https://api.example.com/search?q=test" = "https://api.example.com/search?q=test" :=
  sanitize_url_idem_and_identity.2 _ (by decide)

/-- Claim C3: for every URL whose query string carries the parameter named
exactly private_access_token, anywhere among the pieces, sanitize_url yields a
URL whose query is the piecewise redaction, contains the redacted rendering,
no longer contains the secret value as long as the secret occurs only as that
parameter value, and keeps every other piece verbatim at its position. -/
theorem sanitize_url_redacts_exact_param
    (base secret : List Char) (pre post ps : List (List Char))
    (hps : ps = pre ++ (tokenKey ++ secret) :: post)
    (hbq : '?' ∉ base)
    (hpieces : ∀ p ∈ pre ++ post, '&' ∉ p)
    (hsec_ne : secret ≠ [])
    (hsamp : '&' ∉ secret) (hsqm : '?' ∉ secret)
    (hbase : ¬ secret <:+: base)
    (hred : ¬ secret <:+: redactedParam)
    (hothers : ∀ p ∈ pre ++ post, isPrefOf tokenKey p = false → ¬ secret <:+: p) :
    (sanitize_url (urlOfPieces base ps)).data
        = base ++ '?' :: joinChar '&' (ps.map sanitizePiece)
    ∧ redactedParam <:+: (sanitize_url (urlOfPieces base ps)).data
    ∧ (¬ secret <:+: (sanitize_url (urlOfPieces base ps)).data)
    ∧ ∀ i (h1 : i < ps.length) (h2 : i < (ps.map sanitizePiece).length),
        isPrefOf tokenKey (ps.get ⟨i, h1⟩) = false →
        (ps.map sanitizePiece).get ⟨i, h2⟩ = ps.get ⟨i, h1⟩ := by
  subst hps
  have hkamp : '&' ∉ tokenKey := by decide
  have hallamp : ∀ p ∈ pre ++ (tokenKey ++ secret) :: post, '&' ∉ p := by
    intro p hp
    rcases List.mem_append.mp hp with h1 | h1
    · exact hpieces p (List.mem_append.mpr (Or.inl h1))
    · rcases List.mem_cons.mp h1 with h2 | h2
      · subst h2
        intro hm
        rcases List.mem_append.mp hm with h3 | h3
        · exact hkamp h3
        · exact hsamp h3
      · exact hpieces p (List.mem_append.mpr (Or.inr h2))
  have hne : pre ++ (tokenKey ++ secret) :: post ≠ [] := by simp
  have hsf : splitFirstChar '?' (urlOfPieces base (pre ++ (tokenKey ++ secret) :: post)).data
      = some (base, joinChar '&' (pre ++ (tokenKey ++ secret) :: post)) := by
    rw [show (urlOfPieces base (pre ++ (tokenKey ++ secret) :: post)).data
      = base ++ '?' :: joinChar '&' (pre ++ (tokenKey ++ secret) :: post) from rfl]
    exact sfc_append _ hbq
  have hkey : sanitizeQueryChars (joinChar '&' (pre ++ (tokenKey ++ secret) :: post))
      = joinChar '&' ((pre ++ (tokenKey ++ secret) :: post).map sanitizePiece) := by
    unfold sanitizeQueryChars
    rw [soc_join hallamp hne]
  have hout : (sanitize_url (urlOfPieces base (pre ++ (tokenKey ++ secret) :: post))).data
      = base ++ '?' :: joinChar '&' ((pre ++ (tokenKey ++ secret) :: post).map sanitizePiece) := by
    rw [sanitize_some hsf, mk_data, hkey]
  refine ⟨hout, ?_, ?_, ?_⟩
  · rw [hout]
    have hmem : redactedParam ∈ (pre ++ (tokenKey ++ secret) :: post).map sanitizePiece :=
      List.mem_map.mpr ⟨tokenKey ++ secret, by simp, sanitizePiece_matched secret⟩
    exact seg_app_right base (seg_cons '?' (mem_seg_join hmem))
  · rw [hout]
    intro hcon
    rcases seg_split hcon hsqm with h1 | h1
    · exact hbase h1
    · obtain ⟨p', hp', hseg⟩ := seg_join h1 hsamp hsec_ne
      obtain ⟨p0, hp0, hpe⟩ := List.mem_map.mp hp'
      rcases List.mem_append.mp hp0 with h2 | h2
      · cases hip : isPrefOf tokenKey p0 with
        | true =>
          rw [← hpe, show sanitizePiece p0 = redactedParam from by simp [sanitizePiece, hip]] at hseg
          exact hred hseg
        | false =>
          rw [← hpe, sanitizePiece_unmatched hip] at hseg
          exact hothers p0 (List.mem_append.mpr (Or.inl h2)) hip hseg
      · rcases List.mem_cons.mp h2 with h3 | h3
        · subst h3
          rw [← hpe, sanitizePiece_matched] at hseg
          exact hred hseg
        · cases hip : isPrefOf tokenKey p0 with
          | true =>
            rw [← hpe, show sanitizePiece p0 = redactedParam from by simp [sanitizePiece, hip]] at hseg
            exact hred hseg
          | false =>
            rw [← hpe, sanitizePiece_unmatched hip] at hseg
            exact hothers p0 (List.mem_append.mpr (Or.inr h3)) hip hseg
  · intro i h1 h2 hfalse
    have hm : ((pre ++ (tokenKey ++ secret) :: post).map sanitizePiece).get ⟨i, h2⟩
        = sanitizePiece ((pre ++ (tokenKey ++ secret) :: post).get ⟨i, h1⟩) :=
      List.getElem_map sanitizePiece
    rw [hm, sanitizePiece_unmatched hfalse]

/-- Witness for C3 at a concrete URL embedding a concrete secret in the middle
of the query string. -/
theorem sanitize_url_redacts_exact_param_witness :
    redactedParam <:+: (sanitize_url (urlOfPieces "https://api.example.com/search".data
      ["q=test".data, tokenKey ++ "secret123".data, "limit=5".data])).data
    ∧ ¬ "secret123".data <:+: (sanitize_url (urlOfPieces "https://api.example.com/search".data
      ["q=test".data, tokenKey ++ "secret123".data, "limit=5".data])).data := by
  have h := sanitize_url_redacts_exact_param "https://api.example.com/search".data
    "secret123".data ["q=test".data] ["limit=5".data]
    ["q=test".data, tokenKey ++ "secret123".data, "limit=5".data] rfl
    (by decide) (by decide) (by decide) (by decide) (by decide) (by decide) (by decide)
    (by decide)
  exact ⟨h.2.1, h.2.2.1⟩

theorem parse_split (p v : String) (hp : ':' ∉ p.data) :
    parse_query (p ++ ":" ++ v)
      = (if trimStr v = "" then ParseResult.invalidQuery invalidQueryMsg
        else if lowerStr p = "name" then ParseResult.ok (SearchFilter.byName (trimStr v))
        else if lowerStr p = "cin" then ParseResult.ok (SearchFilter.byCIN (trimStr v))
        else ParseResult.invalidQuery invalidQueryMsg) := by
  have hd : (p ++ ":" ++ v).data = p.data ++ ':' :: v.data := by
    rw [show (p ++ ":" ++ v).data = (p.data ++ [':']) ++ v.data from rfl,
      List.append_assoc]
    rfl
  unfold parse_query
  rw [hd, sfc_append _ hp]

/-- Claim C4: query parsing is a pure function: every name:text or cin:text
query with any letter case on the field and a nonempty trimmed value parses to
the matching variant carrying the trimmed value, the split happens on the
first colon only, and a query with no colon, an unknown field, or an empty
trimmed value fails with the InvalidQuery message; a failed parse makes the
whole invocation fail identically for every context, environment and
transport, with no request issued. -/
theorem parse_query_contract :
    (∀ p v : String, ':' ∉ p.data → lowerStr p = "name" → trimStr v ≠ "" →
        parse_query (p ++ ":" ++ v) = ParseResult.ok (SearchFilter.byName (trimStr v)))
    ∧ (∀ p v : String, ':' ∉ p.data → lowerStr p = "cin" → trimStr v ≠ "" →
        parse_query (p ++ ":" ++ v) = ParseResult.ok (SearchFilter.byCIN (trimStr v)))
    ∧ (∀ s : String, ':' ∉ s.data →
        parse_query s = ParseResult.invalidQuery invalidQueryMsg)
    ∧ (∀ p v : String, ':' ∉ p.data → lowerStr p ≠ "name" → lowerStr p ≠ "cin" →
        parse_query (p ++ ":" ++ v) = ParseResult.invalidQuery invalidQueryMsg)
    ∧ (∀ p v : String, ':' ∉ p.data → trimStr v = "" →
        parse_query (p ++ ":" ++ v) = ParseResult.invalidQuery invalidQueryMsg)
    ∧ ∀ q limit ao ctx env http, parse_query q = ParseResult.invalidQuery invalidQueryMsg →
        query_corporate_bodies q limit ao ctx env http
          = (ToolResult.error (ToolError.invalidQuery invalidQueryMsg), none) := by
  refine ⟨?_, ?_, ?_, ?_, ?_, ?_⟩
  · intro p v hp hn hv
    rw [parse_split p v hp, if_neg hv, if_pos hn]
  · intro p v hp hn hv
    have hnn : ¬ lowerStr p = "name" := by rw [hn]; decide
    rw [parse_split p v hp, if_neg hv, if_neg hnn, if_pos hn]
  · intro s hs
    unfold parse_query
    rw [sfc_of_not_mem hs]
  · intro p v hp h1 h2
    rw [parse_split p v hp]
    by_cases hv : trimStr v = ""
    · rw [if_pos hv]
    · rw [if_neg hv, if_neg h1, if_neg h2]
  · intro p v hp hv
    rw [parse_split p v hp, if_pos hv]
  · intro q limit ao ctx env http h
    unfold query_corporate_bodies
    rw [h]

/-- Witness for C4 at concrete queries: a mixed-case name query with a colon
inside the value parses on the first colon, and a query with no colon fails. -/
theorem parse_query_contract_witness :
    parse_query ("Name" ++ ":" ++ " a:b ") = ParseResult.ok (SearchFilter.byName "a:b")
    ∧ parse_query "nocolon" = ParseResult.invalidQuery invalidQueryMsg := by
  constructor
  · have h := parse_query_contract.1 "Name" " a:b " (by decide) (by decide) (by decide)
    rw [h]
    decide
  · exact parse_query_contract.2.2.1 "nocolon" (by decide)

theorem resolve_cases (a x e : Option String) :
    get_access_token (mkCtx a x) (envOf e)
      = match a.bind bearerToken, x, e with
        | some t, _, _ => ResolveResult.token t
        | none, some t, _ => ResolveResult.token t
        | none, none, some t => ResolveResult.token t
        | none, none, none => ResolveResult.missingCredential missingCredentialMsg := by
  cases a with
  | none =>
    cases x with
    | none =>
      cases e with
      | none => simp [get_access_token, headerTokenOf, mkCtx, envOf]
      | some t => simp [get_access_token, headerTokenOf, mkCtx, envOf]
    | some t => simp [get_access_token, headerTokenOf, mkCtx]
  | some av =>
    cases hb : bearerToken av with
    | some t => simp [get_access_token, headerTokenOf, mkCtx, hb]
    | none =>
      cases x with
      | none =>
        cases e with
        | none => simp [get_access_token, headerTokenOf, mkCtx, envOf, hb]
        | some t => simp [get_access_token, headerTokenOf, mkCtx, envOf, hb]
      | some t => simp [get_access_token, headerTokenOf, mkCtx, hb]

/-- Claim C2: credential resolution always picks the first available source in
the fixed order: a Bearer Authorization header whose scheme keyword matches
case-insensitively, with the token after the scheme extracted verbatim, then
the custom header verbatim, then the environment variable; with all three
present the Bearer token wins, and a non-Bearer Authorization header is
ignored entirely, falling through to the next sources without an error. -/
theorem credential_precedence :
    (∀ c1 c2 c3 c4 c5 c6 c7 (t : String),
        [c1, c2, c3, c4, c5, c6, c7].map Char.toLower = "bearer ".data →
        bearerToken (String.mk ([c1, c2, c3, c4, c5, c6, c7] ++ t.data)) = some t)
    ∧ (∀ a t x e, bearerToken a = some t →
        get_access_token (mkCtx (some a) x) (envOf e) = ResolveResult.token t)
    ∧ (∀ a x e, bearerToken a = none →
        get_access_token (mkCtx (some a) (some x)) (envOf e) = ResolveResult.token x)
    ∧ ∀ a e, bearerToken a = none →
        get_access_token (mkCtx (some a) none) (envOf (some e)) = ResolveResult.token e := by
  refine ⟨?_, ?_, ?_, ?_⟩
  · intro c1 c2 c3 c4 c5 c6 c7 t h
    show (if [c1, c2, c3, c4, c5, c6, c7].map Char.toLower = "bearer ".data then
      some (String.mk t.data) else none) = some t
    rw [if_pos h, mk_of_data]
  · intro a t x e hb
    simp [get_access_token, headerTokenOf, mkCtx, hb]
  · intro a x e hb
    simp [get_access_token, headerTokenOf, mkCtx, hb]
  · intro a e hb
    simp [get_access_token, headerTokenOf, mkCtx, envOf, hb]

/-- Witness for C2: with all three sources populated the Bearer token wins. -/
theorem credential_precedence_witness :
    get_access_token (mkCtx (some "Bearer auth-token") (some "custom-header-token"))
      (envOf (some "env-token")) = ResolveResult.token "auth-token" :=
  credential_precedence.2.1 "Bearer auth-token" "auth-token"
    (some "custom-header-token") (some "env-token") (by decide)

/-- Claim C9: when no source yields a value, resolution fails with the
MissingCredential message, which names the environment variable, before any
network call; and for every combination of present and absent sources exactly
one of the four outcomes obtains, each determined by the first available
source. -/
theorem credential_resolution_total :
    (∀ a x e, get_access_token (mkCtx a x) (envOf e)
          = ResolveResult.missingCredential missingCredentialMsg
        ↔ (a.bind bearerToken = none ∧ x = none ∧ e = none))
    ∧ tokenEnvVar.data <:+: missingCredentialMsg.data
    ∧ (∀ a x e,
        (∃ t, a.bind bearerToken = some t
          ∧ get_access_token (mkCtx a x) (envOf e) = ResolveResult.token t)
        ∨ (a.bind bearerToken = none ∧ ∃ t, x = some t
          ∧ get_access_token (mkCtx a x) (envOf e) = ResolveResult.token t)
        ∨ (a.bind bearerToken = none ∧ x = none ∧ ∃ t, e = some t
          ∧ get_access_token (mkCtx a x) (envOf e) = ResolveResult.token t)
        ∨ (a.bind bearerToken = none ∧ x = none ∧ e = none
          ∧ get_access_token (mkCtx a x) (envOf e)
            = ResolveResult.missingCredential missingCredentialMsg))
    ∧ ∀ q l b ctx env http f, parse_query q = ParseResult.ok f →
        get_access_token ctx env = ResolveResult.missingCredential missingCredentialMsg →
        query_corporate_bodies q l b ctx env http
          = (ToolResult.error (ToolError.missingCredential missingCredentialMsg), none) := by
  refine ⟨?_, by decide, ?_, ?_⟩
  · intro a x e
    rw [resolve_cases]
    cases ha : a.bind bearerToken with
    | some t => simp
    | none =>
      cases x with
      | some t => simp
      | none =>
        cases e with
        | some t => simp
        | none => simp
  · intro a x e
    rw [resolve_cases]
    cases ha : a.bind bearerToken with
    | some t => exact Or.inl ⟨t, rfl, rfl⟩
    | none =>
      cases x with
      | some t => exact Or.inr (Or.inl ⟨rfl, t, rfl, rfl⟩)
      | none =>
        cases e with
        | some t => exact Or.inr (Or.inr (Or.inl ⟨rfl, rfl, t, rfl, rfl⟩))
        | none => exact Or.inr (Or.inr (Or.inr ⟨rfl, rfl, rfl, rfl⟩))
  · intro q l b ctx env http f hp hc
    unfold query_corporate_bodies
    rw [hp, hc]

/-- Witness for C9: all three sources absent yields the MissingCredential
message. -/
theorem credential_resolution_total_witness :
    get_access_token (mkCtx none none) (envOf none)
      = ResolveResult.missingCredential missingCredentialMsg :=
  (credential_resolution_total.1 none none none).mpr ⟨rfl, rfl, rfl⟩

/-- Claim C10: a SearchResult constructed with no arguments has count zero and
an empty results sequence, and a CorporateBody constructed with no arguments
has every field absent. -/
theorem default_constructions :
    ({} : SearchResult).count = 0 ∧ ({} : SearchResult).results = []
    ∧ ({} : CorporateBody).cin = none ∧ ({} : CorporateBody).tin = none
    ∧ ({} : CorporateBody).vatin = none ∧ ({} : CorporateBody).name = none
    ∧ ({} : CorporateBody).formatted_address = none
    ∧ ({} : CorporateBody).street = none
    ∧ ({} : CorporateBody).reg_number = none
    ∧ ({} : CorporateBody).building_number = none
    ∧ ({} : CorporateBody).postal_code = none
    ∧ ({} : CorporateBody).municipality = none
    ∧ ({} : CorporateBody).country = none
    ∧ ({} : CorporateBody).established_on = none
    ∧ ({} : CorporateBody).terminated_on = none
    ∧ ({} : CorporateBody).datahub_corporate_body_url = none :=
  ⟨rfl, rfl, rfl, rfl, rfl, rfl, rfl, rfl, rfl, rfl, rfl, rfl, rfl, rfl, rfl, rfl⟩

theorem pipeline_ok (query : String) (limit : Nat) (ao : Bool)
    (ctx : Option ToolContext) (env : String → Option String)
    (http : OutRequest → HttpResponse) (f : SearchFilter) (tok : String)
    (hp : parse_query query = ParseResult.ok f)
    (hc : get_access_token ctx env = ResolveResult.token tok) :
    query_corporate_bodies query limit ao ctx env http
      = (match http (OutRequest.mk apiBase (buildParams f limit ao tok)) with
        | HttpResponse.success objs =>
            (ToolResult.ok ⟨objs.length, objs.map parseCorporateBody⟩,
              some (OutRequest.mk apiBase (buildParams f limit ao tok)))
        | HttpResponse.failure status jm text =>
            (ToolResult.error (ToolError.upstreamHTTP (composeHttpError status jm text
              (OutRequest.mk apiBase (buildParams f limit ao tok)))),
              some (OutRequest.mk apiBase (buildParams f limit ao tok)))
        | HttpResponse.transportFailure r =>
            (ToolResult.error (ToolError.upstreamTransport (composeTransportError r)),
              some (OutRequest.mk apiBase (buildParams f limit ao tok)))) := by
  unfold query_corporate_bodies
  rw [hp, hc]

/-- Claim C5: whenever the query parses and the credential resolves, the
upstream GET request is issued with the q parameter set to the normalized
field:value form of the filter, the limit parameter set to the integer limit,
and the filter parameter set to the literal active exactly when activeOnly
holds, absent otherwise. -/
theorem request_params (query : String) (limit : Nat) (ao : Bool)
    (ctx : Option ToolContext) (env : String → Option String)
    (http : OutRequest → HttpResponse) (f : SearchFilter) (tok : String)
    (hp : parse_query query = ParseResult.ok f)
    (hc : get_access_token ctx env = ResolveResult.token tok) :
    (query_corporate_bodies query limit ao ctx env http).2
        = some (OutRequest.mk apiBase (buildParams f limit ao tok))
    ∧ paramValue (buildParams f limit ao tok) "q" = some (normalizedQ f)
    ∧ paramValue (buildParams f limit ao tok) "limit" = some (toString limit)
    ∧ paramValue (buildParams f limit ao tok) "filter"
        = (if ao then some "active" else none) := by
  refine ⟨?_, ?_, ?_, ?_⟩
  · rw [pipeline_ok query limit ao ctx env http f tok hp hc]
    cases http (OutRequest.mk apiBase (buildParams f limit ao tok)) <;> rfl
  · cases ao <;> rfl
  · cases ao <;> rfl
  · cases ao <;> rfl

/-- Witness for C5 at a concrete invocation with activeOnly set. -/
theorem request_params_witness :
    paramValue (buildParams (SearchFilter.byName "Test") 10 true "test-token") "q"
        = some "name:Test"
    ∧ paramValue (buildParams (SearchFilter.byName "Test") 10 true "test-token") "filter"
        = some "active" := by
  have h := request_params ("name" ++ ":" ++ "Test") 10 true none
    (envOf (some "test-token")) (fun _ => HttpResponse.success [])
    (SearchFilter.byName "Test") "test-token" (by decide) (by decide)
  exact ⟨h.2.1, h.2.2.2⟩

/-- Claim C6: a successful upstream response carrying N JSON objects yields a
SearchResult whose count is N and whose results are the permissive mappings of
the objects, in order; unknown fields are ignored and absent fields stay
absent rather than defaulting to an empty string. -/
theorem success_mapping (query : String) (limit : Nat) (ao : Bool)
    (ctx : Option ToolContext) (env : String → Option String)
    (http : OutRequest → HttpResponse) (f : SearchFilter) (tok : String)
    (objs : List JsonObject)
    (hp : parse_query query = ParseResult.ok f)
    (hc : get_access_token ctx env = ResolveResult.token tok)
    (hh : http (OutRequest.mk apiBase (buildParams f limit ao tok))
        = HttpResponse.success objs) :
    (query_corporate_bodies query limit ao ctx env http).1
        = ToolResult.ok ⟨objs.length, objs.map parseCorporateBody⟩
    ∧ (objs.map parseCorporateBody).length = objs.length
    ∧ (∀ i (h1 : i < objs.length) (h2 : i < (objs.map parseCorporateBody).length),
        (objs.map parseCorporateBody).get ⟨i, h2⟩ = parseCorporateBody (objs.get ⟨i, h1⟩))
    ∧ ∀ o : JsonObject, (parseCorporateBody o).cin = jsonField o "cin"
        ∧ (parseCorporateBody o).name = jsonField o "name" := by
  refine ⟨?_, by simp, ?_, ?_⟩
  · rw [pipeline_ok query limit ao ctx env http f tok hp hc, hh]
  · intro i h1 h2
    exact List.getElem_map parseCorporateBody
  · intro o
    exact ⟨rfl, rfl⟩

/-- Witness for C6 at a concrete one-object response. -/
theorem success_mapping_witness :
    (query_corporate_bodies ("name" ++ ":" ++ "Slovensko") 5 false none
        (envOf (some "test-token"))
        (fun _ => HttpResponse.success
          [[("cin", some "36631124"), ("name", some "Slovensko.Digital")]])).1
      = ToolResult.ok ⟨1,
          [parseCorporateBody [("cin", some "36631124"), ("name", some "Slovensko.Digital")]]⟩ := by
  have h := success_mapping ("name" ++ ":" ++ "Slovensko") 5 false none
    (envOf (some "test-token"))
    (fun _ => HttpResponse.success
      [[("cin", some "36631124"), ("name", some "Slovensko.Digital")]])
    (SearchFilter.byName "Slovensko") "test-token"
    [[("cin", some "36631124"), ("name", some "Slovensko.Digital")]]
    (by decide) (by decide) rfl
  exact h.1

/-- Claim C7: a non-success HTTP status makes the invocation fail, never a
silent empty result, with an error text that contains HTTP followed by the
numeric status code and the human-readable message, taken from the message
field of a JSON body when one parses and from the raw body text otherwise. -/
theorem http_error_message (query : String) (limit : Nat) (ao : Bool)
    (ctx : Option ToolContext) (env : String → Option String)
    (http : OutRequest → HttpResponse) (f : SearchFilter) (tok : String)
    (status : Nat) (jm : Option String) (text : String)
    (hp : parse_query query = ParseResult.ok f)
    (hc : get_access_token ctx env = ResolveResult.token tok)
    (hh : http (OutRequest.mk apiBase (buildParams f limit ao tok))
        = HttpResponse.failure status jm text) :
    (query_corporate_bodies query limit ao ctx env http).1
        = ToolResult.error (ToolError.upstreamHTTP (composeHttpError status jm text
          (OutRequest.mk apiBase (buildParams f limit ao tok))))
    ∧ ("HTTP " ++ toString status).data <:+: (composeHttpError status jm text
        (OutRequest.mk apiBase (buildParams f limit ao tok))).data
    ∧ (jm.getD text).data <:+: (composeHttpError status jm text
        (OutRequest.mk apiBase (buildParams f limit ao tok))).data := by
  refine ⟨?_, ?_, ?_⟩
  · rw [pipeline_ok query limit ao ctx env http f tok hp hc, hh]
  · apply seg_of_pref
    refine ⟨(":" ++ " " ++ jm.getD text ++ " " ++ sanitize_url (renderRequest
      (OutRequest.mk apiBase (buildParams f limit ao tok)))).data, ?_⟩
    simp [composeHttpError, data_append, List.append_assoc]
  · refine ⟨(("HTTP " ++ toString status ++ ":") ++ " ").data,
      (" " ++ sanitize_url (renderRequest
        (OutRequest.mk apiBase (buildParams f limit ao tok)))).data, ?_⟩
    simp [composeHttpError, data_append, List.append_assoc]

/-- Witness for C7 at a concrete 400 response with a JSON message field. -/
theorem http_error_message_witness :
    ("HTTP " ++ toString 400).data <:+: (composeHttpError 400
        (some "Invalid query format") "ignored"
        (OutRequest.mk apiBase (buildParams (SearchFilter.byName "Test") 5 false
          "test-token"))).data
    ∧ "Invalid query format".data <:+: (composeHttpError 400
        (some "Invalid query format") "ignored"
        (OutRequest.mk apiBase (buildParams (SearchFilter.byName "Test") 5 false
          "test-token"))).data := by
  have h := http_error_message ("name" ++ ":" ++ "Test") 5 false none
    (envOf (some "test-token"))
    (fun _ => HttpResponse.failure 400 (some "Invalid query format") "ignored")
    (SearchFilter.byName "Test") "test-token" 400 (some "Invalid query format")
    "ignored" (by decide) (by decide) rfl
  exact ⟨h.2.1, h.2.2⟩

theorem parse_inv_msg {q m : String} (h : parse_query q = ParseResult.invalidQuery m) :
    m = invalidQueryMsg := by
  unfold parse_query at h
  cases hsf : splitFirstChar ':' q.data with
  | none =>
    rw [hsf] at h
    have h2 : ParseResult.invalidQuery invalidQueryMsg = ParseResult.invalidQuery m := h
    exact (ParseResult.invalidQuery.inj h2).symm
  | some pr =>
    obtain ⟨l, r⟩ := pr
    rw [hsf] at h
    have h2 : (if trimStr (String.mk r) = "" then ParseResult.invalidQuery invalidQueryMsg
        else if lowerStr (String.mk l) = "name" then
          ParseResult.ok (SearchFilter.byName (trimStr (String.mk r)))
        else if lowerStr (String.mk l) = "cin" then
          ParseResult.ok (SearchFilter.byCIN (trimStr (String.mk r)))
        else ParseResult.invalidQuery invalidQueryMsg) = ParseResult.invalidQuery m := h
    split at h2
    · exact (ParseResult.invalidQuery.inj h2).symm
    · split at h2
      · exact absurd h2 (by simp)
      · split at h2
        · exact absurd h2 (by simp)
        · exact (ParseResult.invalidQuery.inj h2).symm

theorem resolve_missing_msg {ctx : Option ToolContext} {env : String → Option String}
    {m : String} (h : get_access_token ctx env = ResolveResult.missingCredential m) :
    m = missingCredentialMsg := by
  unfold get_access_token at h
  cases hh : headerTokenOf ctx with
  | some t =>
    rw [hh] at h
    exact absurd (show ResolveResult.token t = ResolveResult.missingCredential m from h)
      (by simp)
  | none =>
    rw [hh] at h
    cases he : env tokenEnvVar with
    | some t =>
      rw [he] at h
      exact absurd (show ResolveResult.token t = ResolveResult.missingCredential m from h)
        (by simp)
    | none =>
      rw [he] at h
      exact (ResolveResult.missingCredential.inj (show ResolveResult.missingCredential
        missingCredentialMsg = ResolveResult.missingCredential m from h)).symm

theorem renderRequest_data (base : String) (params : List (String × String)) :
    (renderRequest (OutRequest.mk base params)).data
      = base.data ++ '?' :: joinChar '&'
          (params.map (fun p => p.1.data ++ '=' :: p.2.data)) := by
  unfold renderRequest
  rw [show ((base ++ "?" ++ renderQuery ((params.map renderParam)))).data
    = (base.data ++ ['?']) ++ (renderQuery (params.map renderParam)).data from rfl]
  rw [renderQuery_data, List.map_map, List.append_assoc]
  have hfun : (String.data ∘ renderParam)
      = fun p : String × String => p.1.data ++ '=' :: p.2.data := by
    funext p
    obtain ⟨k, v⟩ := p
    exact renderParam_data k v
  rw [hfun]
  rfl

theorem composeHttpError_data (status : Nat) (jm : Option String) (text : String)
    (req : OutRequest) :
    (composeHttpError status jm text req).data
      = ("HTTP " ++ toString status ++ ":").data
        ++ ' ' :: ((jm.getD text).data
          ++ ' ' :: (sanitize_url (renderRequest req)).data) := by
  show ((((("HTTP " ++ toString status ++ ":")).data ++ [' ']) ++ (jm.getD text).data)
    ++ [' ']) ++ (sanitize_url (renderRequest req)).data = _
  simp [List.append_assoc]

theorem composeTransportError_data (r : String) :
    (composeTransportError r).data = "Request failed:".data ++ ' ' :: r.data := by
  show ("Request failed:".data ++ [' ']) ++ r.data = _
  simp [List.append_assoc]

theorem no_seg_url {secret base : List Char} {ps : List (List Char)}
    (hne : secret ≠ []) (hamp : '&' ∉ secret) (hqm : '?' ∉ secret)
    (hb : ¬ secret <:+: base) (hp : ∀ p ∈ ps, ¬ secret <:+: p) :
    ¬ secret <:+: (base ++ '?' :: joinChar '&' ps) := by
  intro hcon
  rcases seg_split hcon hqm with h1 | h1
  · exact hb h1
  · obtain ⟨p, hpm, hs⟩ := seg_join h1 hamp hne
    exact hp p hpm hs

theorem no_seg_msg {secret a b c : List Char} (hsp : ' ' ∉ secret)
    (ha : ¬ secret <:+: a) (hb : ¬ secret <:+: b) (hc : ¬ secret <:+: c) :
    ¬ secret <:+: (a ++ ' ' :: (b ++ ' ' :: c)) := by
  intro hcon
  rcases seg_split hcon hsp with h1 | h1
  · exact ha h1
  · rcases seg_split h1 hsp with h2 | h2
    · exact hb h2
    · exact hc h2

theorem sanitized_request_data (f : SearchFilter) (limit : Nat) (ao : Bool) (tok : String)
    (h1 : '&' ∉ (normalizedQ f).data) (h2 : '&' ∉ (toString limit).data)
    (h3 : '&' ∉ tok.data) :
    (sanitize_url (renderRequest (OutRequest.mk apiBase (buildParams f limit ao tok)))).data
      = apiBase.data ++ '?' :: joinChar '&'
          ([("q=" ++ normalizedQ f).data, ("limit=" ++ toString limit).data]
            ++ (if ao then ["filter=active".data] else []) ++ [redactedParam]) := by
  have hqf : isPrefOf tokenKey (("q=" ++ normalizedQ f).data) = false := by
    show isPrefOf ('p' :: "rivate_access_token=".data)
      ('q' :: '=' :: (normalizedQ f).data) = false
    exact isPrefOf_head_ne _ _ (by decide)
  have hlf : isPrefOf tokenKey (("limit=" ++ toString limit).data) = false := by
    show isPrefOf ('p' :: "rivate_access_token=".data)
      ('l' :: ("imit=".data ++ (toString limit).data)) = false
    exact isPrefOf_head_ne _ _ (by decide)
  have hff : isPrefOf tokenKey ("filter=active".data) = false := by decide
  have ha1 : '&' ∉ ("q=" ++ normalizedQ f).data := by
    intro hm
    rcases List.mem_append.mp (show '&' ∈ "q=".data ++ (normalizedQ f).data from hm)
      with h | h
    · exact absurd h (by decide)
    · exact h1 h
  have ha2 : '&' ∉ ("limit=" ++ toString limit).data := by
    intro hm
    rcases List.mem_append.mp (show '&' ∈ "limit=".data ++ (toString limit).data from hm)
      with h | h
    · exact absurd h (by decide)
    · exact h2 h
  have ha3 : '&' ∉ "filter=active".data := by decide
  have ha4 : '&' ∉ tokenKey ++ tok.data := by
    intro hm
    rcases List.mem_append.mp hm with h | h
    · exact absurd h (by decide)
    · exact h3 h
  cases ao with
  | false =>
    have hrr : (renderRequest (OutRequest.mk apiBase (buildParams f limit false tok))).data
        = apiBase.data ++ '?' :: joinChar '&'
            [("q=" ++ normalizedQ f).data, ("limit=" ++ toString limit).data,
              tokenKey ++ tok.data] := by
      rw [renderRequest_data]
      rfl
    have hsf : splitFirstChar '?'
        (renderRequest (OutRequest.mk apiBase (buildParams f limit false tok))).data
        = some (apiBase.data, joinChar '&' [("q=" ++ normalizedQ f).data,
            ("limit=" ++ toString limit).data, tokenKey ++ tok.data]) := by
      rw [hrr]
      exact sfc_append _ (by decide)
    rw [sanitize_some hsf, mk_data]
    have hall : ∀ p ∈ [("q=" ++ normalizedQ f).data, ("limit=" ++ toString limit).data,
        tokenKey ++ tok.data], '&' ∉ p := by
      intro p hp
      rcases List.mem_cons.mp hp with rfl | hp2
      · exact ha1
      rcases List.mem_cons.mp hp2 with rfl | hp3
      · exact ha2
      rcases List.mem_cons.mp hp3 with rfl | hp4
      · exact ha4
      · exact absurd hp4 (List.not_mem_nil p)
    have hs : sanitizeQueryChars (joinChar '&' [("q=" ++ normalizedQ f).data,
        ("limit=" ++ toString limit).data, tokenKey ++ tok.data])
        = joinChar '&' [("q=" ++ normalizedQ f).data,
            ("limit=" ++ toString limit).data, redactedParam] := by
      unfold sanitizeQueryChars
      rw [soc_join hall (by simp)]
      simp only [List.map_cons, List.map_nil]
      rw [sanitizePiece_unmatched hqf, sanitizePiece_unmatched hlf, sanitizePiece_matched]
    rw [hs]
    rfl
  | true =>
    have hrr : (renderRequest (OutRequest.mk apiBase (buildParams f limit true tok))).data
        = apiBase.data ++ '?' :: joinChar '&'
            [("q=" ++ normalizedQ f).data, ("limit=" ++ toString limit).data,
              "filter=active".data, tokenKey ++ tok.data] := by
      rw [renderRequest_data]
      rfl
    have hsf : splitFirstChar '?'
        (renderRequest (OutRequest.mk apiBase (buildParams f limit true tok))).data
        = some (apiBase.data, joinChar '&' [("q=" ++ normalizedQ f).data,
            ("limit=" ++ toString limit).data, "filter=active".data,
            tokenKey ++ tok.data]) := by
      rw [hrr]
      exact sfc_append _ (by decide)
    rw [sanitize_some hsf, mk_data]
    have hall : ∀ p ∈ [("q=" ++ normalizedQ f).data, ("limit=" ++ toString limit).data,
        "filter=active".data, tokenKey ++ tok.data], '&' ∉ p := by
      intro p hp
      rcases List.mem_cons.mp hp with rfl | hp2
      · exact ha1
      rcases List.mem_cons.mp hp2 with rfl | hp3
      · exact ha2
      rcases List.mem_cons.mp hp3 with rfl | hp4
      · exact ha3
      rcases List.mem_cons.mp hp4 with rfl | hp5
      · exact ha4
      · exact absurd hp5 (List.not_mem_nil p)
    have hs : sanitizeQueryChars (joinChar '&' [("q=" ++ normalizedQ f).data,
        ("limit=" ++ toString limit).data, "filter=active".data, tokenKey ++ tok.data])
        = joinChar '&' [("q=" ++ normalizedQ f).data,
            ("limit=" ++ toString limit).data, "filter=active".data, redactedParam] := by
      unfold sanitizeQueryChars
      rw [soc_join hall (by simp)]
      simp only [List.map_cons, List.map_nil]
      rw [sanitizePiece_unmatched hqf, sanitizePiece_unmatched hlf,
        sanitizePiece_unmatched hff, sanitizePiece_matched]
    rw [hs]
    rfl

/-- Claim C1: across every error path of the tool invocation, invalid query,
missing credential, upstream HTTP error and transport error, the externally
observable error text never contains the secret; in particular, even though
the request URL embeds the resolved token as the private_access_token
parameter, the composed failure message, whether built from a JSON message
field or from the raw response text, never contains a secret that occurs in no
component other than that parameter value. -/
theorem no_credential_leak (query : String) (limit : Nat) (ao : Bool)
    (ctx : Option ToolContext) (env : String → Option String)
    (http : OutRequest → HttpResponse) (secret : String)
    (hne : secret.data ≠ [])
    (hsp : ' ' ∉ secret.data) (hamp : '&' ∉ secret.data) (hqm : '?' ∉ secret.data)
    (hinv : ¬ secret.data <:+: invalidQueryMsg.data)
    (hmiss : ¬ secret.data <:+: missingCredentialMsg.data)
    (hbase : ¬ secret.data <:+: apiBase.data)
    (hred : ¬ secret.data <:+: redactedParam)
    (hq : ∀ f, parse_query query = ParseResult.ok f →
        ¬ secret.data <:+: ("q=" ++ normalizedQ f).data ∧ '&' ∉ (normalizedQ f).data)
    (hlim : ¬ secret.data <:+: ("limit=" ++ toString limit).data)
    (hlamp : '&' ∉ (toString limit).data)
    (hfil : ¬ secret.data <:+: "filter=active".data)
    (htok : ∀ t, get_access_token ctx env = ResolveResult.token t → '&' ∉ t.data)
    (hfail : ∀ req status jm text, http req = HttpResponse.failure status jm text →
        ¬ secret.data <:+: ("HTTP " ++ toString status ++ ":").data
        ∧ ¬ secret.data <:+: (jm.getD text).data)
    (htr : ¬ secret.data <:+: "Request failed:".data)
    (htrr : ∀ req r, http req = HttpResponse.transportFailure r →
        ¬ secret.data <:+: r.data) :
    ∀ e, (query_corporate_bodies query limit ao ctx env http).1 = ToolResult.error e →
      ¬ secret.data <:+: (toolErrorMsg e).data := by
  intro e he
  cases hp : parse_query query with
  | invalidQuery m =>
    have hm := parse_inv_msg hp
    subst hm
    unfold query_corporate_bodies at he
    rw [hp] at he
    have he2 : ToolResult.error (ToolError.invalidQuery invalidQueryMsg)
        = ToolResult.error e := he
    cases ToolResult.error.inj he2
    exact hinv
  | ok f =>
    cases hc : get_access_token ctx env with
    | missingCredential m =>
      have hm := resolve_missing_msg hc
      subst hm
      unfold query_corporate_bodies at he
      rw [hp, hc] at he
      have he2 : ToolResult.error (ToolError.missingCredential missingCredentialMsg)
          = ToolResult.error e := he
      cases ToolResult.error.inj he2
      exact hmiss
    | token tok =>
      rw [pipeline_ok query limit ao ctx env http f tok hp hc] at he
      cases hh : http (OutRequest.mk apiBase (buildParams f limit ao tok)) with
      | success objs =>
        rw [hh] at he
        exact absurd (show ToolResult.ok ⟨objs.length, objs.map parseCorporateBody⟩
          = ToolResult.error e from he) (by simp)
      | failure status jm text =>
        rw [hh] at he
        have he2 : ToolResult.error (ToolError.upstreamHTTP (composeHttpError status jm
            text (OutRequest.mk apiBase (buildParams f limit ao tok))))
            = ToolResult.error e := he
        cases ToolResult.error.inj he2
        show ¬ secret.data <:+: (composeHttpError status jm text
          (OutRequest.mk apiBase (buildParams f limit ao tok))).data
        rw [composeHttpError_data]
        obtain ⟨hfp, hfm⟩ := hfail _ status jm text hh
        apply no_seg_msg hsp hfp hfm
        obtain ⟨hqseg, hqamp⟩ := hq f hp
        have htamp := htok tok hc
        rw [sanitized_request_data f limit ao tok hqamp hlamp htamp]
        apply no_seg_url hne hamp hqm hbase
        intro p hpm
        cases ao with
        | false =>
          rcases List.mem_cons.mp hpm with rfl | hp2
          · exact hqseg
          rcases List.mem_cons.mp hp2 with rfl | hp3
          · exact hlim
          rcases List.mem_cons.mp hp3 with rfl | hp4
          · exact hred
          · exact absurd hp4 (List.not_mem_nil p)
        | true =>
          rcases List.mem_cons.mp hpm with rfl | hp2
          · exact hqseg
          rcases List.mem_cons.mp hp2 with rfl | hp3
          · exact hlim
          rcases List.mem_cons.mp hp3 with rfl | hp4
          · exact hfil
          rcases List.mem_cons.mp hp4 with rfl | hp5
          · exact hred
          · exact absurd hp5 (List.not_mem_nil p)
      | transportFailure r =>
        rw [hh] at he
        have he2 : ToolResult.error (ToolError.upstreamTransport (composeTransportError r))
            = ToolResult.error e := he
        cases ToolResult.error.inj he2
        show ¬ secret.data <:+: (composeTransportError r).data
        rw [composeTransportError_data]
        intro hcon
        rcases seg_split hcon hsp with h1 | h1
        · exact htr h1
        · exact htrr _ r hh h1

set_option maxRecDepth 40000 in
/-- Witness for C1 at a concrete invocation whose environment credential
secret123 is embedded in the request URL and whose upstream returns a 400 with
a JSON message. -/
theorem no_credential_leak_witness :
    ¬ "secret123".data <:+: (toolErrorMsg (ToolError.upstreamHTTP (composeHttpError 400
      (some "Invalid query format") "ignored"
      (OutRequest.mk apiBase
        (buildParams (SearchFilter.byName "Test") 5 true "secret123"))))).data := by
  have hq : ∀ f, parse_query ("name" ++ ":" ++ "Test") = ParseResult.ok f →
      ¬ "secret123".data <:+: ("q=" ++ normalizedQ f).data
      ∧ '&' ∉ (normalizedQ f).data := by
    intro f hf
    have heq : ParseResult.ok f = ParseResult.ok (SearchFilter.byName "Test") :=
      hf.symm.trans (by decide)
    cases ParseResult.ok.inj heq
    exact ⟨by decide, by decide⟩
  have htok : ∀ t, get_access_token none (envOf (some "secret123"))
      = ResolveResult.token t → '&' ∉ t.data := by
    intro t ht
    have heq : ResolveResult.token t = ResolveResult.token "secret123" :=
      ht.symm.trans (by decide)
    cases ResolveResult.token.inj heq
    decide
  have hfail : ∀ req status jm text,
      (fun _ : OutRequest => HttpResponse.failure 400 (some "Invalid query format")
        "ignored") req = HttpResponse.failure status jm text →
      ¬ "secret123".data <:+: ("HTTP " ++ toString status ++ ":").data
      ∧ ¬ "secret123".data <:+: (jm.getD text).data := by
    intro req status jm text hh
    obtain ⟨hs1, hs2, hs3⟩ := HttpResponse.failure.inj hh
    subst hs1; subst hs2; subst hs3
    exact ⟨by decide, by decide⟩
  have htrr : ∀ req r,
      (fun _ : OutRequest => HttpResponse.failure 400 (some "Invalid query format")
        "ignored") req = HttpResponse.transportFailure r →
      ¬ "secret123".data <:+: r.data := by
    intro req r hh
    exact absurd hh (by simp)
  exact no_credential_leak ("name" ++ ":" ++ "Test") 5 true none
    (envOf (some "secret123"))
    (fun _ => HttpResponse.failure 400 (some "Invalid query format") "ignored")
    "secret123" (by decide) (by decide) (by decide) (by decide) (by decide) (by decide)
    (by decide) (by decide) hq (by decide) (by decide) (by decide) htok hfail
    (by decide) htrr
    (ToolError.upstreamHTTP (composeHttpError 400 (some "Invalid query format") "ignored"
      (OutRequest.mk apiBase (buildParams (SearchFilter.byName "Test") 5 true "secret123"))))
    (by decide)
